import Mathlib

/-!
Shallow embedding of the `migrate` Go library (package `migrate` plus the
`concrete` executors).  The orchestrator collects migration handlers from
registered executors, sorts them by index, validates that the index sequence
is dense (adjacent gaps of exactly 1), loads or initializes the schema row
(`version`, `dirty`) of the schema table, and executes the not-yet-applied
handlers sequentially, updating the row after each step.

Go machine integers never approach overflow here, so `index` and `version`
are modelled as `Int`.  Opaque driver/action error values are modelled as
`Nat` payloads.  Each fallible `db.Exec`/`db.Query` call is given an
injectable fault (`Faults`), `none` meaning the call succeeds.
-/

/-- A migration handler (Go interface `Handler`): an ordinal `index`
(`GetIndex`) plus an executable action (`Exec`).  The action is modelled by
its outcome: `none` means `Exec` returns nil, `some e` means it fails with
error payload `e`. -/
structure Handler where
  index : Int
  act : Option Nat
deriving DecidableEq, Repr

/-- The row of the schema table: columns `version` (int) and `dirty`
(tinyint, read as bool). -/
structure Schema where
  version : Int
  dirty : Bool
deriving DecidableEq, Repr

/-- The database as `migrate` sees it: whether the schema table exists and
its (at most one) row.  The code never creates a second row, so one
`Option Schema` is enough. -/
structure DB where
  tableExists : Bool
  row : Option Schema
deriving DecidableEq, Repr

/-- A database with no schema table yet (first-ever run). -/
def freshDB : DB := ⟨false, none⟩

/-- Fault model for the five SQL statements `Run` can issue; `some e` means
the corresponding statement fails with driver error payload `e`, `none` that
it succeeds. -/
structure Faults where
  createErr : Option Nat
  queryErr : Option Nat
  insertErr : Option Nat
  updateDirtyErr : Option Nat
  updateVersionErr : Option Nat
deriving DecidableEq, Repr

/-- All database statements succeed. -/
def noFaults : Faults := ⟨none, none, none, none, none⟩

/-- The errors `Run` can return.  In the source these are formatted errors:
`discovery` is an executor's `ListHandlers` error returned as-is,
`duplicateIndex` is `ErrDuplicateIndexFormat`, `indexGap` is
`ErrIndexGapLargeFormat`, `dirtyState` is `ErrFindIndexDirtyFormat`,
`staleCheckpoint` is `ErrIndexLessDatabaseVersion`, `actionError` is the
handler action's own error returned as-is, and `dbError` is a database error
wrapped by `errors.WithStack`. -/
inductive MigErr where
  | discovery (e : Nat)
  | duplicateIndex (i : Int)
  | indexGap (i : Int)
  | dirtyState (v : Int)
  | staleCheckpoint
  | actionError (e : Nat)
  | dbError (e : Nat)
deriving DecidableEq, Repr

/-- The `migrate` struct: the schema table name, the registered executors
(each modelled by the result its `ListHandlers` call returns: an error or a
handler list, stable across calls), and the owned handler list, which
persists on the instance across calls to `Run`. -/
structure Migrate where
  schemaTable : String
  executors : List (Except Nat (List Handler))
  handlers : List Handler
deriving Repr

/-- Go constant `defaultSchemaTableName`. -/
def defaultSchemaTableName : String := "schema_migrations"

/-- Go `migrate.New` with the `WithExecutors` option: empty handler list,
default table name. -/
def Migrate.new (executors : List (Except Nat (List Handler))) : Migrate :=
  { schemaTable := defaultSchemaTableName, executors := executors, handlers := [] }

/-- Step 1 of `migrate.initHandlers`: call `ListHandlers` on each executor in
order, appending each result to the accumulated `m.handlers`, and stop at the
first executor error (handlers appended before the failure stay appended). -/
def collectHandlers : List (Except Nat (List Handler)) → List Handler →
    List Handler × Option Nat
  | [], acc => (acc, none)
  | .error e :: _, acc => (acc, some e)
  | .ok hs :: rest, acc => collectHandlers rest (acc ++ hs)

/-- Step 2 of `migrate.initHandlers`: `sort.Slice` with comparator
`handlers[i].GetIndex() < handlers[j].GetIndex()`, which yields a permutation
sorted by non-decreasing index; modelled by insertion sort. -/
def sortHandlers (hs : List Handler) : List Handler :=
  hs.insertionSort fun a b => a.index ≤ b.index

/-- Step 3 of `migrate.initHandlers`: walk adjacent pairs of the sorted list;
a gap of 1 continues, a gap of 0 reports `ErrDuplicateIndexFormat` with the
left index, anything else reports `ErrIndexGapLargeFormat` with the left
index. -/
def checkIndexes : List Handler → Option MigErr
  | a :: b :: rest =>
    if b.index - a.index = 1 then checkIndexes (b :: rest)
    else if b.index - a.index = 0 then some (.duplicateIndex a.index)
    else some (.indexGap a.index)
  | _ => none

/-- Go `migrate.initHandlers`: collect from all executors (appending to the
handlers the instance already holds), sort in place, validate.  The sorted
list is stored on the instance even when validation fails. -/
def initHandlers (m : Migrate) : Migrate × Option MigErr :=
  match collectHandlers m.executors m.handlers with
  | (hs, some e) => ({ m with handlers := hs }, some (.discovery e))
  | (hs, none) =>
    let sorted := sortHandlers hs
    ({ m with handlers := sorted }, checkIndexes sorted)

/-- Go query `updateSchemaQuery`: UPDATE sets only the `version` column, the
`dirty` column is untouched. -/
def dbUpdateVersion (db : DB) (v : Int) : DB :=
  { db with row := db.row.map fun s => { s with version := v } }

/-- Go query `updateDirtyQuery`: UPDATE sets both `version` and `dirty`. -/
def dbUpdateDirty (db : DB) (v : Int) (d : Bool) : DB :=
  { db with row := db.row.map fun _ => ⟨v, d⟩ }

/-- Go `migrate.initAndGetSchema`: select the schema row; if there is none,
insert the default `(0, 0)` row and keep the zero-valued struct; finally fail
with `ErrFindIndexDirtyFormat` if the struct read is dirty. -/
def initAndGetSchema (f : Faults) (db : DB) : DB × Except MigErr Schema :=
  match f.queryErr with
  | some e => (db, .error (.dbError e))
  | none =>
    match db.row with
    | none =>
      match f.insertErr with
      | some e => (db, .error (.dbError e))
      | none => ({ db with row := some ⟨0, false⟩ }, .ok ⟨0, false⟩)
    | some sche =>
      if sche.dirty then (db, .error (.dirtyState sche.version))
      else (db, .ok sche)

/-- The execution loop of `migrate.Run` (step 4) over the not-yet-applied
suffix of the handler list.  Returns the final database, the indices of the
handlers whose action was invoked (in invocation order), and the error, if
any.  A failing action writes `(index, 1)` through `updateDirtyQuery` and
returns the action's error as-is, unless that write itself fails, in which
case the write's error is returned; a successful action writes its index
through `updateSchemaQuery`. -/
def runLoop (f : Faults) : List Handler → DB → DB × List Int × Option MigErr
  | [], db => (db, [], none)
  | h :: rest, db =>
    match h.act with
    | some e =>
      match f.updateDirtyErr with
      | some ie => (db, [h.index], some (.dbError ie))
      | none => (dbUpdateDirty db h.index true, [h.index], some (.actionError e))
    | none =>
      match f.updateVersionErr with
      | some ie => (db, [h.index], some (.dbError ie))
      | none =>
        match runLoop f rest (dbUpdateVersion db h.index) with
        | (db2, tr, res) => (db2, h.index :: tr, res)

/-- Steps 2 to 4 of `migrate.Run`, which depend on the instance only through
its (already collected and sorted) handler list: create the schema table if
absent, load or initialize the schema row, fail with
`ErrIndexLessDatabaseVersion` when the stored version exceeds the handler
count, then run the loop from slice position `schema.version`.  The stored
version is non-negative in every state the code itself produces. -/
def runAfterInit (f : Faults) (handlers : List Handler) (db : DB) :
    DB × List Int × Option MigErr :=
  match f.createErr with
  | some e => (db, [], some (.dbError e))
  | none =>
    let db1 : DB := { db with tableExists := true }
    match initAndGetSchema f db1 with
    | (db2, .error err) => (db2, [], some err)
    | (db2, .ok sche) =>
      if (handlers.length : Int) < sche.version then (db2, [], some .staleCheckpoint)
      else runLoop f (handlers.drop sche.version.toNat) db2

/-- The result of one `Run` call: the mutated instance, the database, the
indices of the actions that were invoked, and the returned error. -/
structure RunResult where
  m : Migrate
  db : DB
  executed : List Int
  err : Option MigErr
deriving Repr

/-- Go `migrate.Run`: initialize and validate the handler list, then create
the table, load the schema row and execute sequentially. -/
def run (f : Faults) (m : Migrate) (db : DB) : RunResult :=
  match initHandlers m with
  | (m1, some err) => ⟨m1, db, [], some err⟩
  | (m1, none) =>
    match runAfterInit f m1.handlers db with
    | (db2, tr, res) => ⟨m1, db2, tr, res⟩

/-! ## The concrete SQL executor (`concrete/sql.go`) -/

/-- One entry of `os.ReadDir`: whether it is a directory, and its name. -/
structure DirEntry where
  isDir : Bool
  name : String
deriving DecidableEq, Repr

/-- Go struct `fileInfo` of `concrete/sql.go`. -/
structure FileInfo where
  index : Int
  fileName : String
  ext : String
deriving DecidableEq, Repr

/-- The errors the SQL executor's discovery can produce: a failed
`os.ReadDir`, `ErrFileType`, `ErrFileName`, or a failed `os.Open`/read. -/
inductive SqlErr where
  | readDir (e : Nat)
  | fileType
  | fileName
  | openFile (e : Nat)
deriving DecidableEq, Repr

/-- Go constant `sqlExt`. -/
def sqlExt : String := ".sql"

/-- Go `path.Ext`: the suffix of the name beginning at its final dot, empty
when the last path element has no dot. -/
def pathExt (s : String) : String :=
  let rev := s.data.reverse
  let pre := rev.takeWhile fun c => c != '.' && c != '/'
  match rev.drop pre.length with
  | '.' :: _ => ⟨'.' :: pre.reverse⟩
  | _ => ""

/-- The loop of `getFilesByDir` over the directory entries: a directory entry
fails with `ErrFileType`; non-`.sql` files are skipped; the leading
`_`-separated component of the name must parse as a base-10 integer
(`strconv.ParseInt`, modelled by `String.toInt?`), else `ErrFileName`. -/
def filesLoop : List DirEntry → Except SqlErr (List FileInfo)
  | [] => .ok []
  | d :: rest =>
    if d.isDir then .error .fileType
    else if pathExt d.name ≠ sqlExt then filesLoop rest
    else
      match ((d.name.splitOn "_").headD "").toInt? with
      | none => .error .fileName
      | some num =>
        match filesLoop rest with
        | .error e => .error e
        | .ok fs => .ok (⟨num, d.name, pathExt d.name⟩ :: fs)

/-- Go `getFilesByDir`: read the directory (its result, possibly an error, is
the `readDir` argument) and scan the entries. -/
def getFilesByDir (readDir : Except Nat (List DirEntry)) :
    Except SqlErr (List FileInfo) :=
  match readDir with
  | .error e => .error (.readDir e)
  | .ok dirs => filesLoop dirs

/-- The handler-building loop of `sqlExecutor.initHandlers`: open and read
each listed file (`contents name` is the file's content, `none` when the
open/read fails) and build one handler per file whose action runs the file's
content as a transactional query; `outcome q` is the result that execution
would produce. -/
def sqlBuild (contents : String → Option String) (outcome : String → Option Nat) :
    List FileInfo → Except SqlErr (List Handler)
  | [] => .ok []
  | fi :: rest =>
    match contents fi.fileName with
    | none => .error (.openFile 0)
    | some q =>
      match sqlBuild contents outcome rest with
      | .error e => .error e
      | .ok hs => .ok (⟨fi.index, outcome q⟩ :: hs)

/-- Go `sqlExecutor.initHandlers`, whose result is what `ListHandlers`
reports on a fresh executor: when `getFilesByDir` fails the code returns
`nil`, so the error is dropped and the caller sees an empty handler list with
no error; otherwise one handler per listed file. -/
def sqlInitHandlers (readDir : Except Nat (List DirEntry))
    (contents : String → Option String) (outcome : String → Option Nat) :
    Except SqlErr (List Handler) :=
  match getFilesByDir readDir with
  | .error _ => .ok []
  | .ok files => sqlBuild contents outcome files

/-! ## Concrete scenarios -/

/-- A unit set with contiguous indices 1..3 in which the action at index 1
succeeds, the action at index 2 fails with payload 7, and the action at
index 3 would succeed. -/
def mFailAt2 : Migrate := Migrate.new [Except.ok [⟨1, none⟩, ⟨2, some 7⟩, ⟨3, none⟩]]

/-- The same unit set except that the failure (with the same payload 7) is
at index 3 and the action at index 2 succeeds. -/
def mFailAt3 : Migrate := Migrate.new [Except.ok [⟨1, none⟩, ⟨2, none⟩, ⟨3, some 7⟩]]

/-- A single unit at index 1 whose action succeeds. -/
def mOne : Migrate := Migrate.new [Except.ok [⟨1, none⟩]]

/-- A unit set whose indices 2,3 are dense 1-apart but do not start at 1. -/
def mStartTwo : Migrate := Migrate.new [Except.ok [⟨2, none⟩, ⟨3, none⟩]]

/-! ## Claim theorems -/

/-- C1, counterexample: the claim says the error `Run` returns for the
failing unit is the action's error wrapped with the failing index, so that it
identifies index 2.  In the code the action's error is returned as-is
(`return err`), carrying no index: the run failing at index 2 and the run
failing at index 3 (same action error payload) return exactly the same error,
so the returned error cannot identify the failing index. -/
theorem run_error_does_not_identify_index :
    (run noFaults mFailAt2 freshDB).executed = [1, 2] ∧
    (run noFaults mFailAt3 freshDB).executed = [1, 2, 3] ∧
    (run noFaults mFailAt2 freshDB).err = (run noFaults mFailAt3 freshDB).err := by
  decide

/-- C1, amended: with units [1: succeeds, 2: fails, 3: succeeds], `Run`
executes index 1 (advancing the row to version 1, as the last conjunct shows
for the first step in isolation), executes index 2, writes version 2 and
dirty true on its failure and stops; index 3 is never executed; and the error
returned to the caller is the failing action's own error, returned as-is and
carrying no index. -/
theorem run_fail_scenario :
    (run noFaults mFailAt2 freshDB).executed = [1, 2] ∧
    (run noFaults mFailAt2 freshDB).db.row = some ⟨2, true⟩ ∧
    (run noFaults mFailAt2 freshDB).err = some (.actionError 7) ∧
    (runLoop noFaults [⟨1, none⟩] ⟨true, some ⟨0, false⟩⟩).1.row = some ⟨1, false⟩ := by
  decide

/-- C2: a first `Run` over the single succeeding unit of index 1 ends with
version 1, dirty false, and no error; but a second `Run` on the same
instance is not an idempotent no-op: `initHandlers` appends the re-queried
units to the handler list the instance retained from the first run, so the
second run fails with the duplicate-index error for index 1 (executing
nothing) instead of returning nil. -/
theorem run_rerun_duplicates :
    (run noFaults mOne freshDB).err = none ∧
    (run noFaults mOne freshDB).db.row = some ⟨1, false⟩ ∧
    (run noFaults (run noFaults mOne freshDB).m (run noFaults mOne freshDB).db).err
      = some (.duplicateIndex 1) ∧
    (run noFaults (run noFaults mOne freshDB).m (run noFaults mOne freshDB).db).executed
      = [] := by
  decide

/-- C3: the orchestrator does short-circuit with the first executor's
enumeration error (second conjunct), but the SQL executor itself does not
report a failure to read its source directory: `initHandlers` of
`concrete/sql.go` returns nil when `getFilesByDir` fails, so `ListHandlers`
yields an empty unit list with no error (first conjunct), and a `Run` whose
SQL source is in that state proceeds as if that source had zero units,
returning no error (third conjunct) instead of failing with a discovery
error. -/
theorem sql_swallowed_dir_error :
    sqlInitHandlers (Except.error 5) (fun _ => none) (fun _ => none) = Except.ok [] ∧
    (initHandlers (Migrate.new [Except.error 5, Except.ok [⟨1, none⟩]])).2
      = some (.discovery 5) ∧
    (run noFaults (Migrate.new [Except.ok []]) freshDB).err = none := by
  refine ⟨rfl, by decide, by decide⟩

/-- C4, counterexample: the ordering validation does not require the first
sorted unit to carry index 1.  The collected set with indices 2,3 passes
validation (`initHandlers` reports no error), its first sorted index is 2,
and `Run` goes on to execute both units. -/
theorem validation_accepts_first_index_two :
    (initHandlers mStartTwo).2 = none ∧
    (initHandlers mStartTwo).1.handlers.map Handler.index = [2, 3] ∧
    (2 : Int) ≠ 1 ∧
    (run noFaults mStartTwo freshDB).executed = [2, 3] := by
  decide

/-! ## The dense-sequence characterization of the validation -/

/-- Specification-side definition (for comparison with `checkIndexes`): the
dense, 1-apart sequence of `n` indices starting at `base`. -/
def denseFrom (base : Int) : Nat → List Int
  | 0 => []
  | n + 1 => base :: denseFrom (base + 1) n

/-- The adjacent-pair walk reports no error exactly when every adjacent index
gap is 1. -/
theorem checkIndexes_eq_none_iff_chain : ∀ l : List Handler,
    checkIndexes l = none ↔ List.Chain' (fun x y => y.index - x.index = 1) l
  | [] => by simp [checkIndexes]
  | [a] => by simp [checkIndexes]
  | a :: b :: rest => by
    by_cases hg : b.index - a.index = 1
    · simp only [checkIndexes, if_pos hg, List.chain'_cons]
      rw [checkIndexes_eq_none_iff_chain (b :: rest)]
      simp [hg]
    · by_cases h0 : b.index - a.index = 0 <;>
        simp [checkIndexes, hg, h0, List.chain'_cons]

/-- A handler list is a 1-apart chain iff its index list is the dense
sequence starting at the head's index. -/
theorem chain_iff_dense (t : List Handler) : ∀ h : Handler,
    List.Chain' (fun x y => y.index - x.index = 1) (h :: t) ↔
      (h :: t).map Handler.index = denseFrom h.index (t.length + 1) := by
  induction t with
  | nil => intro h; simp [denseFrom]
  | cons b t ih =>
    intro h
    rw [List.chain'_cons, ih b]
    simp only [List.map_cons, List.length_cons, denseFrom, List.cons.injEq, true_and]
    constructor
    · rintro ⟨hgap, htail⟩
      have hb : b.index = h.index + 1 := by omega
      rw [htail, hb]
      exact ⟨rfl, rfl⟩
    · rintro ⟨hb, htail⟩
      refine ⟨by omega, ?_⟩
      rw [htail, hb]

/-- C4, amended: the ordering validation accepts a non-empty collected unit
list iff its indices are the dense 1-apart sequence starting at the first
unit's index.  Nothing requires that first index to be 1; the validation
lines up with the checkpoint's version-0 sentinel and the execution-start
position only when it is. -/
theorem checkIndexes_eq_none_iff (h : Handler) (t : List Handler) :
    checkIndexes (h :: t) = none ↔
      (h :: t).map Handler.index = denseFrom h.index (t.length + 1) :=
  (checkIndexes_eq_none_iff_chain (h :: t)).trans (chain_iff_dense t h)

/-! ## Facts about the dense sequence -/

theorem denseFrom_length : ∀ (n : Nat) (base : Int), (denseFrom base n).length = n
  | 0, _ => rfl
  | n + 1, base => by simp [denseFrom, denseFrom_length n]

theorem le_of_mem_denseFrom : ∀ (n : Nat) (base x : Int),
    x ∈ denseFrom base n → base ≤ x
  | 0, base, x, hx => by simp [denseFrom] at hx
  | n + 1, base, x, hx => by
    rcases List.mem_cons.mp hx with h | h
    · omega
    · have := le_of_mem_denseFrom n (base + 1) x h
      omega

theorem denseFrom_pairwise_lt : ∀ (n : Nat) (base : Int),
    List.Pairwise (· < ·) (denseFrom base n)
  | 0, _ => List.Pairwise.nil
  | n + 1, base => by
    refine List.pairwise_cons.mpr ⟨fun x hx => ?_, denseFrom_pairwise_lt n (base + 1)⟩
    have := le_of_mem_denseFrom n (base + 1) x hx
    omega

theorem denseFrom_getLastD : ∀ (n : Nat) (base d : Int),
    (denseFrom base (n + 1)).getLastD d = base + n
  | 0, base, d => by simp [denseFrom]
  | n + 1, base, d => by
    rw [show denseFrom base (n + 1 + 1) = base :: denseFrom (base + 1) (n + 1) from rfl,
      List.getLastD_cons, denseFrom_getLastD n (base + 1) base]
    push_cast
    omega

/-! ## Facts about the sort -/

instance : IsTotal Handler fun a b => a.index ≤ b.index :=
  ⟨fun a b => Int.le_total a.index b.index⟩

instance : IsTrans Handler fun a b => a.index ≤ b.index :=
  ⟨fun _ _ _ h1 h2 => le_trans h1 h2⟩

instance : IsAntisymm Handler fun a b => a.index < b.index :=
  ⟨fun _ _ h1 h2 => absurd (lt_trans h1 h2) (lt_irrefl _)⟩

theorem sortHandlers_perm (hs : List Handler) : (sortHandlers hs).Perm hs :=
  List.perm_insertionSort _ hs

theorem sortHandlers_sorted (hs : List Handler) :
    List.Sorted (fun a b => a.index ≤ b.index) (sortHandlers hs) :=
  List.sorted_insertionSort _ hs

theorem pairwise_lt_of_le_ne (l : List Handler)
    (hle : l.Pairwise fun a b => a.index ≤ b.index)
    (hne : l.Pairwise fun a b => a.index ≠ b.index) :
    l.Pairwise fun a b => a.index < b.index := by
  induction l with
  | nil => exact List.Pairwise.nil
  | cons h t ih =>
    rcases List.pairwise_cons.mp hle with ⟨hle1, hle2⟩
    rcases List.pairwise_cons.mp hne with ⟨hne1, hne2⟩
    exact List.pairwise_cons.mpr
      ⟨fun x hx => lt_of_le_of_ne (hle1 x hx) (hne1 x hx), ih hle2 hne2⟩

/-- Sorting two permuted handler lists with pairwise distinct indices gives
the same sorted list. -/
theorem sortHandlers_eq_of_perm (l l2 : List Handler) (hp : l.Perm l2)
    (hnd : (l.map Handler.index).Nodup) : sortHandlers l = sortHandlers l2 := by
  have hperm : (sortHandlers l).Perm (sortHandlers l2) :=
    ((sortHandlers_perm l).trans hp).trans (sortHandlers_perm l2).symm
  have hnd1 : ((sortHandlers l).map Handler.index).Nodup :=
    (((sortHandlers_perm l).map Handler.index).nodup_iff).mpr hnd
  have hnd2 : ((sortHandlers l2).map Handler.index).Nodup :=
    ((hperm.map Handler.index).nodup_iff).mp hnd1
  have hs1 := pairwise_lt_of_le_ne _ (sortHandlers_sorted l) (List.pairwise_map.mp hnd1)
  have hs2 := pairwise_lt_of_le_ne _ (sortHandlers_sorted l2) (List.pairwise_map.mp hnd2)
  exact List.eq_of_perm_of_sorted hperm hs1 hs2

/-! ## Facts about collection and the run loop -/

theorem collectHandlers_map_ok : ∀ (srcs : List (List Handler)) (acc : List Handler),
    collectHandlers (srcs.map Except.ok) acc = (acc ++ srcs.flatten, none)
  | [], acc => by simp [collectHandlers]
  | s :: srcs, acc => by
    simp [collectHandlers, collectHandlers_map_ok srcs (acc ++ s)]

theorem initHandlers_new_ok (srcs : List (List Handler)) :
    initHandlers (Migrate.new (srcs.map Except.ok))
      = ({ Migrate.new (srcs.map Except.ok) with handlers := sortHandlers srcs.flatten },
         checkIndexes (sortHandlers srcs.flatten)) := by
  simp [initHandlers, Migrate.new, collectHandlers_map_ok]

theorem run_of_init_err (f : Faults) (m m1 : Migrate) (db : DB) (e : MigErr)
    (h : initHandlers m = (m1, some e)) : run f m db = ⟨m1, db, [], some e⟩ := by
  simp [run, h]

theorem run_of_init_ok (f : Faults) (m m1 : Migrate) (db : DB)
    (h : initHandlers m = (m1, none)) :
    run f m db = ⟨m1, (runAfterInit f m1.handlers db).1,
      (runAfterInit f m1.handlers db).2.1, (runAfterInit f m1.handlers db).2.2⟩ := by
  rcases hr : runAfterInit f m1.handlers db with ⟨db2, tr, res⟩
  simp [run, h, hr]

/-- Validation succeeds on any handler list whose indices are the dense
sequence 1..N. -/
theorem checkIndexes_of_dense (S : List Handler) (N : Nat)
    (hmap : S.map Handler.index = denseFrom 1 N) : checkIndexes S = none := by
  cases S with
  | nil => rfl
  | cons h t =>
    have hlen : N = t.length + 1 := by
      have hl := congrArg List.length hmap
      simp [denseFrom_length] at hl
      omega
    rw [hlen] at hmap
    have hhead : h.index = 1 := by
      have hh := congrArg List.head? hmap
      simpa [denseFrom] using hh
    rw [checkIndexes_eq_none_iff_chain, chain_iff_dense, hmap, hhead]

/-- The database state after the `updateSchemaQuery` writes of a run of
successful handlers. -/
def advanceAll (pre : List Handler) (db : DB) : DB :=
  pre.foldl (fun d x => dbUpdateVersion d x.index) db

theorem runLoop_append_ok (f : Faults) (hver : f.updateVersionErr = none)
    (l : List Handler) : ∀ (pre : List Handler) (db : DB),
    (∀ x ∈ pre, x.act = none) →
    runLoop f (pre ++ l) db
      = ((runLoop f l (advanceAll pre db)).1,
         pre.map Handler.index ++ (runLoop f l (advanceAll pre db)).2.1,
         (runLoop f l (advanceAll pre db)).2.2)
  | [], db, _ => by simp [advanceAll]
  | p :: pre, db, hok => by
    have hp : p.act = none := hok p (List.mem_cons_self p pre)
    have ih := runLoop_append_ok f hver l pre (dbUpdateVersion db p.index)
      fun x hx => hok x (List.mem_cons_of_mem p hx)
    simp only [advanceAll] at ih
    simp only [List.cons_append, runLoop, hp, hver, advanceAll, List.foldl_cons,
      List.map_cons, List.append_eq]
    rw [ih]

theorem runLoop_all_ok (f : Faults) (hver : f.updateVersionErr = none)
    (hs : List Handler) (db : DB) (hok : ∀ x ∈ hs, x.act = none) :
    runLoop f hs db = (advanceAll hs db, hs.map Handler.index, none) := by
  have h := runLoop_append_ok f hver [] hs db hok
  simpa [runLoop] using h

theorem runLoop_trace_take (f : Faults) : ∀ (hs : List Handler) (db : DB),
    ∃ n, (runLoop f hs db).2.1 = (hs.map Handler.index).take n
  | [], _ => ⟨0, rfl⟩
  | h :: rest, db => by
    rcases hact : h.act with _ | e
    · rcases hv : f.updateVersionErr with _ | ie
      · obtain ⟨n, hn⟩ := runLoop_trace_take f rest (dbUpdateVersion db h.index)
        exact ⟨n + 1, by simp [runLoop, hact, hv, hn]⟩
      · exact ⟨1, by simp [runLoop, hact, hv]⟩
    · rcases hd : f.updateDirtyErr with _ | ie
      · exact ⟨1, by simp [runLoop, hact, hd]⟩
      · exact ⟨1, by simp [runLoop, hact, hd]⟩

theorem advanceAll_row_some : ∀ (hs : List Handler) (db : DB) (s : Schema),
    db.row = some s →
    (advanceAll hs db).row = some ⟨(hs.map Handler.index).getLastD s.version, s.dirty⟩
  | [], db, s, h => by simp [advanceAll, h]
  | h :: rest, db, s, hrow => by
    have hstep : (dbUpdateVersion db h.index).row = some ⟨h.index, s.dirty⟩ := by
      simp [dbUpdateVersion, hrow]
    rw [show advanceAll (h :: rest) db = advanceAll rest (dbUpdateVersion db h.index)
        from rfl,
      advanceAll_row_some rest _ _ hstep]
    rw [List.map_cons, List.getLastD_cons]

theorem advanceAll_tableExists : ∀ (hs : List Handler) (db : DB),
    (advanceAll hs db).tableExists = db.tableExists
  | [], _ => rfl
  | h :: rest, db => by
    rw [show advanceAll (h :: rest) db = advanceAll rest (dbUpdateVersion db h.index)
        from rfl,
      advanceAll_tableExists rest _]
    rfl

theorem DB.ext2 (a b : DB) (h1 : a.tableExists = b.tableExists)
    (h2 : a.row = b.row) : a = b := by
  cases a; cases b; cases h1; cases h2; rfl

/-- On a clean loaded row, steps 2 and 3 of `Run` reduce to the stale check
followed by the loop from slice position `version`. -/
theorem runAfterInit_clean (f : Faults) (S : List Handler) (db : DB) (v : Int)
    (hcr : f.createErr = none) (hq : f.queryErr = none)
    (hrow : db.row = some ⟨v, false⟩) :
    runAfterInit f S db
      = if (S.length : Int) < v
        then ({ db with tableExists := true }, [], some .staleCheckpoint)
        else runLoop f (S.drop v.toNat) { db with tableExists := true } := by
  simp [runAfterInit, initAndGetSchema, hcr, hq, hrow]

/-- On a fresh database, steps 2 and 3 of `Run` create the table, insert the
default row and start the loop at the beginning. -/
theorem runAfterInit_fresh (f : Faults) (S : List Handler)
    (hcr : f.createErr = none) (hq : f.queryErr = none) (hin : f.insertErr = none) :
    runAfterInit f S freshDB = runLoop f S ⟨true, some ⟨0, false⟩⟩ := by
  have hnn : ¬ ((S.length : Int) < 0) := not_lt.mpr (Int.natCast_nonneg _)
  simp [runAfterInit, initAndGetSchema, hcr, hq, hin, freshDB, hnn]

/-- The walk reports the error of the first adjacent pair whose gap is not 1:
a duplicate-index error when that gap is 0, an index-gap error otherwise, in
both cases naming the left element's index. -/
theorem checkIndexes_append_bad (a b : Handler) (rest : List Handler)
    (hbad : b.index - a.index ≠ 1) :
    ∀ good : List Handler,
    List.Chain' (fun x y => y.index - x.index = 1) (good ++ [a]) →
    checkIndexes (good ++ a :: b :: rest)
      = some (if b.index - a.index = 0 then MigErr.duplicateIndex a.index
              else MigErr.indexGap a.index)
  | [], _ => by
    by_cases h0 : b.index - a.index = 0 <;> simp [checkIndexes, hbad, h0]
  | [g], hch => by
    have hga : a.index - g.index = 1 := by
      simpa using List.chain'_pair.mp hch
    have hbase := checkIndexes_append_bad a b rest hbad [] (by simp)
    simpa [checkIndexes, hga] using hbase
  | g :: g2 :: gs, hch => by
    have hch2 : List.Chain' (fun x y => y.index - x.index = 1) ((g2 :: gs) ++ [a]) :=
      (List.chain'_cons.mp hch).2
    have hgg : g2.index - g.index = 1 := (List.chain'_cons.mp hch).1
    have ih := checkIndexes_append_bad a b rest hbad (g2 :: gs) hch2
    simpa [checkIndexes, hgg] using ih

/-- C5: after sorting, if the first adjacent pair whose index gap is not 1
has gap 0, `Run` returns the duplicate-index error naming that index, and if
that gap is anything else it returns the index-gap error naming the left
index; in both cases `Run` returns before any unit's action executes. -/
theorem run_validation_error (f : Faults) (m : Migrate) (db : DB)
    (hs good rest : List Handler) (a b : Handler)
    (hcol : collectHandlers m.executors m.handlers = (hs, none))
    (hsort : sortHandlers hs = good ++ a :: b :: rest)
    (hchain : List.Chain' (fun x y => y.index - x.index = 1) (good ++ [a]))
    (hbad : b.index - a.index ≠ 1) :
    (run f m db).executed = [] ∧
    (run f m db).err = some (if b.index - a.index = 0
      then MigErr.duplicateIndex a.index else MigErr.indexGap a.index) := by
  have hchk := checkIndexes_append_bad a b rest hbad good hchain
  have hinit : initHandlers m
      = ({ m with handlers := good ++ a :: b :: rest },
         some (if b.index - a.index = 0 then MigErr.duplicateIndex a.index
               else MigErr.indexGap a.index)) := by
    unfold initHandlers
    rw [hcol]
    simp [hsort, hchk]
  rw [run_of_init_err f m _ db _ hinit]
  exact ⟨rfl, rfl⟩

theorem run_validation_error_witness :
    collectHandlers (Migrate.new [Except.ok [⟨1, none⟩, ⟨1, none⟩]]).executors
        (Migrate.new [Except.ok [⟨1, none⟩, ⟨1, none⟩]]).handlers
      = ([⟨1, none⟩, ⟨1, none⟩], none) ∧
    sortHandlers [⟨1, none⟩, ⟨1, none⟩]
      = [] ++ (⟨1, none⟩ : Handler) :: (⟨1, none⟩ : Handler) :: [] ∧
    List.Chain' (fun x y : Handler => y.index - x.index = 1)
      ([] ++ [(⟨1, none⟩ : Handler)]) ∧
    (⟨1, none⟩ : Handler).index - (⟨1, none⟩ : Handler).index ≠ 1 ∧
    ((run noFaults (Migrate.new [Except.ok [⟨1, none⟩, ⟨1, none⟩]]) freshDB).executed = []
      ∧ (run noFaults (Migrate.new [Except.ok [⟨1, none⟩, ⟨1, none⟩]]) freshDB).err
        = some (if (⟨1, none⟩ : Handler).index - (⟨1, none⟩ : Handler).index = 0
          then MigErr.duplicateIndex (⟨1, none⟩ : Handler).index
          else MigErr.indexGap (⟨1, none⟩ : Handler).index)) :=
  ⟨by decide, by decide, by simp, by decide,
    run_validation_error noFaults (Migrate.new [Except.ok [⟨1, none⟩, ⟨1, none⟩]])
      freshDB [⟨1, none⟩, ⟨1, none⟩] [] [] ⟨1, none⟩ ⟨1, none⟩
      (by decide) (by decide) (by simp) (by decide)⟩

/-- C6: when the loaded schema row is dirty, `Run` returns the dirty-state
error carrying the stored version, executes no unit's action, and leaves the
dirty row exactly as it was (this code path performs no write that could
clear the flag). -/
theorem run_dirty_aborts (f : Faults) (m : Migrate) (db : DB) (v : Int)
    (hrow : db.row = some ⟨v, true⟩)
    (hinit : (initHandlers m).2 = none)
    (hcr : f.createErr = none) (hq : f.queryErr = none) :
    (run f m db).err = some (.dirtyState v) ∧
    (run f m db).executed = [] ∧
    (run f m db).db.row = some ⟨v, true⟩ := by
  have hi : initHandlers m = ((initHandlers m).1, none) := by rw [← hinit]
  rw [run_of_init_ok f m _ db hi]
  simp [runAfterInit, hcr, initAndGetSchema, hq, hrow]

theorem run_dirty_aborts_witness :
    (⟨true, some ⟨4, true⟩⟩ : DB).row = some ⟨4, true⟩ ∧
    (initHandlers (Migrate.new [])).2 = none ∧
    noFaults.createErr = none ∧
    noFaults.queryErr = none ∧
    ((run noFaults (Migrate.new []) ⟨true, some ⟨4, true⟩⟩).err
        = some (.dirtyState 4) ∧
      (run noFaults (Migrate.new []) ⟨true, some ⟨4, true⟩⟩).executed = [] ∧
      (run noFaults (Migrate.new []) ⟨true, some ⟨4, true⟩⟩).db.row
        = some ⟨4, true⟩) :=
  ⟨rfl, by decide, rfl, rfl,
    run_dirty_aborts noFaults (Migrate.new []) ⟨true, some ⟨4, true⟩⟩ 4
      rfl (by decide) rfl rfl⟩

/-- C7: when the loaded clean row's version exceeds the number of collected
units, `Run` fails with the stale-checkpoint error
(`ErrIndexLessDatabaseVersion`) before executing any unit's action. -/
theorem run_stale_checkpoint (f : Faults) (m : Migrate) (db : DB) (v : Int)
    (hinit : (initHandlers m).2 = none)
    (hcr : f.createErr = none) (hq : f.queryErr = none)
    (hrow : db.row = some ⟨v, false⟩)
    (hgt : ((initHandlers m).1.handlers.length : Int) < v) :
    (run f m db).err = some .staleCheckpoint ∧ (run f m db).executed = [] := by
  have hi : initHandlers m = ((initHandlers m).1, none) := by rw [← hinit]
  rw [run_of_init_ok f m _ db hi,
    runAfterInit_clean f ((initHandlers m).1.handlers) db v hcr hq hrow]
  rw [if_pos hgt]
  exact ⟨rfl, rfl⟩

theorem run_stale_checkpoint_witness :
    (initHandlers (Migrate.new [Except.ok [⟨1, none⟩]])).2 = none ∧
    noFaults.createErr = none ∧
    noFaults.queryErr = none ∧
    (⟨true, some ⟨5, false⟩⟩ : DB).row = some ⟨5, false⟩ ∧
    (((initHandlers (Migrate.new [Except.ok [⟨1, none⟩]])).1.handlers.length : Int) < 5) ∧
    ((run noFaults (Migrate.new [Except.ok [⟨1, none⟩]]) ⟨true, some ⟨5, false⟩⟩).err
        = some .staleCheckpoint ∧
      (run noFaults (Migrate.new [Except.ok [⟨1, none⟩]])
        ⟨true, some ⟨5, false⟩⟩).executed = []) :=
  ⟨by decide, rfl, rfl, rfl, by decide,
    run_stale_checkpoint noFaults (Migrate.new [Except.ok [⟨1, none⟩]])
      ⟨true, some ⟨5, false⟩⟩ 5 (by decide) rfl rfl rfl (by decide)⟩

theorem run_of_init_ok2 (f : Faults) (m m1 : Migrate) (S : List Handler) (db : DB)
    (h : initHandlers m = (m1, none)) (hS : m1.handlers = S) :
    run f m db = ⟨m1, (runAfterInit f S db).1, (runAfterInit f S db).2.1,
      (runAfterInit f S db).2.2⟩ := by
  rw [run_of_init_ok f m m1 db h, hS]

/-- C9: when a unit's action fails and the subsequent dirty-mark write to the
schema table itself fails, `Run` returns the write's error (a wrapped
database error), not the action's error. -/
theorem run_dirty_write_masks (f : Faults) (m : Migrate) (db : DB)
    (pre rest : List Handler) (h : Handler) (e ie : Nat) (v : Int)
    (hinit : (initHandlers m).2 = none)
    (hcr : f.createErr = none) (hq : f.queryErr = none)
    (hrow : db.row = some ⟨v, false⟩)
    (hlen : ¬ (((initHandlers m).1.handlers.length : Int) < v))
    (hdrop : (initHandlers m).1.handlers.drop v.toNat = pre ++ h :: rest)
    (hpre : ∀ x ∈ pre, x.act = none)
    (hver : f.updateVersionErr = none)
    (hfail : h.act = some e)
    (hdirty : f.updateDirtyErr = some ie) :
    (run f m db).err = some (.dbError ie) := by
  have hi : initHandlers m = ((initHandlers m).1, none) := by rw [← hinit]
  rw [run_of_init_ok f m _ db hi,
    runAfterInit_clean f ((initHandlers m).1.handlers) db v hcr hq hrow,
    if_neg hlen, hdrop, runLoop_append_ok f hver (h :: rest) pre _ hpre]
  simp [runLoop, hfail, hdirty]

theorem run_dirty_write_masks_witness :
    (initHandlers (Migrate.new [Except.ok [⟨1, none⟩, ⟨2, some 3⟩]])).2 = none ∧
    (⟨none, none, none, some 9, none⟩ : Faults).createErr = none ∧
    (⟨none, none, none, some 9, none⟩ : Faults).queryErr = none ∧
    (⟨true, some ⟨0, false⟩⟩ : DB).row = some ⟨0, false⟩ ∧
    (¬ (((initHandlers (Migrate.new [Except.ok [⟨1, none⟩, ⟨2, some 3⟩]])).1.handlers.length
        : Int) < 0)) ∧
    (initHandlers (Migrate.new [Except.ok [⟨1, none⟩, ⟨2, some 3⟩]])).1.handlers.drop
        (0 : Int).toNat
      = [⟨1, none⟩] ++ (⟨2, some 3⟩ : Handler) :: [] ∧
    (∀ x ∈ ([⟨1, none⟩] : List Handler), x.act = none) ∧
    (⟨none, none, none, some 9, none⟩ : Faults).updateVersionErr = none ∧
    (⟨2, some 3⟩ : Handler).act = some 3 ∧
    (⟨none, none, none, some 9, none⟩ : Faults).updateDirtyErr = some 9 ∧
    (run ⟨none, none, none, some 9, none⟩
        (Migrate.new [Except.ok [⟨1, none⟩, ⟨2, some 3⟩]]) ⟨true, some ⟨0, false⟩⟩).err
      = some (.dbError 9) :=
  ⟨by decide, rfl, rfl, rfl, by decide, by decide, by decide, rfl, rfl, rfl,
    run_dirty_write_masks ⟨none, none, none, some 9, none⟩
      (Migrate.new [Except.ok [⟨1, none⟩, ⟨2, some 3⟩]]) ⟨true, some ⟨0, false⟩⟩
      [⟨1, none⟩] [] ⟨2, some 3⟩ 3 9 0
      (by decide) rfl rfl rfl (by decide) (by decide) (by decide) rfl rfl rfl⟩

/-- C10: the version write of a successful step touches only the version
column, leaving the dirty flag unchanged (first conjunct, for every database
state), and a fully successful first run over units with indices 1..N
creates the table, executes every unit in index order, and leaves the row at
version N, dirty false (version 0, dirty false when N = 0). -/
theorem advance_frame_and_success (N : Nat) (hs : List Handler) (db : DB) (w : Int)
    (hidx : hs.map Handler.index = denseFrom 1 N)
    (hok : ∀ x ∈ hs, x.act = none) :
    ((dbUpdateVersion db w).row.map Schema.dirty = db.row.map Schema.dirty) ∧
    (run noFaults (Migrate.new [Except.ok hs]) freshDB).err = none ∧
    (run noFaults (Migrate.new [Except.ok hs]) freshDB).db = ⟨true, some ⟨N, false⟩⟩ ∧
    (run noFaults (Migrate.new [Except.ok hs]) freshDB).executed
      = hs.map Handler.index := by
  constructor
  · cases hr : db.row <;> simp [dbUpdateVersion, hr]
  have hplt : List.Pairwise (· < ·) (hs.map Handler.index) := by
    rw [hidx]; exact denseFrom_pairwise_lt N 1
  have hple : hs.Pairwise fun a b => a.index ≤ b.index :=
    (List.pairwise_map.mp hplt).imp fun hl => le_of_lt hl
  have hsort : sortHandlers hs = hs := List.Sorted.insertionSort_eq hple
  have hchk : checkIndexes hs = none := checkIndexes_of_dense hs N hidx
  have hi : initHandlers (Migrate.new [Except.ok hs])
      = ({ Migrate.new [Except.ok hs] with handlers := hs }, none) := by
    have hn := initHandlers_new_ok [hs]
    rw [show ([hs] : List (List Handler)).flatten = hs by simp, hsort, hchk] at hn
    simpa using hn
  rw [run_of_init_ok2 noFaults _ _ hs freshDB hi rfl,
    runAfterInit_fresh noFaults hs rfl rfl rfl,
    runLoop_all_ok noFaults rfl hs _ hok]
  refine ⟨rfl, ?_, rfl⟩
  have hrow := advanceAll_row_some hs ⟨true, some ⟨0, false⟩⟩ ⟨0, false⟩ rfl
  have hte := advanceAll_tableExists hs ⟨true, some ⟨0, false⟩⟩
  have hlast : (hs.map Handler.index).getLastD (0 : Int) = (N : Int) := by
    rw [hidx]
    cases N with
    | zero => rfl
    | succ n =>
      rw [denseFrom_getLastD n 1 0]
      push_cast
      omega
  refine DB.ext2 _ _ ?_ ?_
  · rw [hte]
  · rw [hrow]
    exact congrArg (fun z : Int => (some ⟨z, false⟩ : Option Schema)) hlast

theorem advance_frame_and_success_witness :
    ([⟨1, none⟩, ⟨2, none⟩] : List Handler).map Handler.index = denseFrom 1 2 ∧
    (∀ x ∈ ([⟨1, none⟩, ⟨2, none⟩] : List Handler), x.act = none) ∧
    (((dbUpdateVersion ⟨true, some ⟨7, true⟩⟩ 5).row.map Schema.dirty
        = (⟨true, some ⟨7, true⟩⟩ : DB).row.map Schema.dirty) ∧
      (run noFaults (Migrate.new [Except.ok [⟨1, none⟩, ⟨2, none⟩]]) freshDB).err
        = none ∧
      (run noFaults (Migrate.new [Except.ok [⟨1, none⟩, ⟨2, none⟩]]) freshDB).db
        = ⟨true, some ⟨2, false⟩⟩ ∧
      (run noFaults (Migrate.new [Except.ok [⟨1, none⟩, ⟨2, none⟩]]) freshDB).executed
        = ([⟨1, none⟩, ⟨2, none⟩] : List Handler).map Handler.index) :=
  ⟨by decide, by decide,
    advance_frame_and_success 2 [⟨1, none⟩, ⟨2, none⟩] ⟨true, some ⟨7, true⟩⟩ 5
      (by decide) (by decide)⟩

theorem runLoop_trace_pairwise (f : Faults) (hs : List Handler) (db : DB)
    (hpl : List.Pairwise (· < ·) (hs.map Handler.index)) :
    List.Pairwise (· < ·) (runLoop f hs db).2.1 := by
  obtain ⟨n, hn⟩ := runLoop_trace_take f hs db
  rw [hn]
  exact List.Pairwise.sublist (List.take_sublist _ _) hpl

theorem runAfterInit_trace_pairwise (f : Faults) (S : List Handler) (db : DB)
    (hpl : List.Pairwise (· < ·) (S.map Handler.index)) :
    List.Pairwise (· < ·) (runAfterInit f S db).2.1 := by
  rcases hc : f.createErr with _ | e
  · rcases hsch : initAndGetSchema f { db with tableExists := true } with ⟨db2, res⟩
    rcases res with err | sche
    · simp [runAfterInit, hc, hsch]
    · simp only [runAfterInit, hc, hsch]
      by_cases hlt : (S.length : Int) < sche.version
      · rw [if_pos hlt]
        exact List.Pairwise.nil
      · rw [if_neg hlt]
        have hsub : ((S.drop sche.version.toNat).map Handler.index).Sublist
            (S.map Handler.index) := by
          rw [List.map_drop]
          exact List.drop_sublist _ _
        exact runLoop_trace_pairwise f _ db2 (List.Pairwise.sublist hsub hpl)
  · simp [runAfterInit, hc]

/-- C8: for a collected unit set whose indices are a permutation of the
dense sequence 1..N, however the units are distributed across sources and in
whatever registration order, `Run` invokes actions strictly in ascending
index order, and the executed sequence is exactly the same for any other
source arrangement carrying the same units. -/
theorem run_order_invariant (f : Faults) (db : DB)
    (srcs srcs2 : List (List Handler)) (N : Nat)
    (hperm : srcs.flatten.Perm srcs2.flatten)
    (hidx : (srcs.flatten.map Handler.index).Perm (denseFrom 1 N)) :
    (run f (Migrate.new (srcs.map Except.ok)) db).executed
      = (run f (Migrate.new (srcs2.map Except.ok)) db).executed ∧
    List.Pairwise (· < ·) (run f (Migrate.new (srcs.map Except.ok)) db).executed := by
  have hndD : (denseFrom 1 N).Nodup :=
    (denseFrom_pairwise_lt N 1).imp fun hl => ne_of_lt hl
  have hnd : (srcs.flatten.map Handler.index).Nodup := hidx.nodup_iff.mpr hndD
  have hsorteq : sortHandlers srcs.flatten = sortHandlers srcs2.flatten :=
    sortHandlers_eq_of_perm _ _ hperm hnd
  have hmap : (sortHandlers srcs.flatten).map Handler.index = denseFrom 1 N := by
    haveI : IsAntisymm Int (· ≤ ·) := ⟨fun _ _ h1 h2 => le_antisymm h1 h2⟩
    have hsle : List.Sorted (· ≤ ·) ((sortHandlers srcs.flatten).map Handler.index) :=
      List.pairwise_map.mpr (sortHandlers_sorted srcs.flatten)
    have hdle : List.Sorted (· ≤ ·) (denseFrom 1 N) :=
      (denseFrom_pairwise_lt N 1).imp fun hl => le_of_lt hl
    exact List.eq_of_perm_of_sorted
      (((sortHandlers_perm _).map Handler.index).trans hidx) hsle hdle
  have hchk : checkIndexes (sortHandlers srcs.flatten) = none :=
    checkIndexes_of_dense _ N hmap
  have hi1 : initHandlers (Migrate.new (srcs.map Except.ok))
      = ({ Migrate.new (srcs.map Except.ok) with
            handlers := sortHandlers srcs.flatten }, none) := by
    rw [initHandlers_new_ok srcs, hchk]
  have hi2 : initHandlers (Migrate.new (srcs2.map Except.ok))
      = ({ Migrate.new (srcs2.map Except.ok) with
            handlers := sortHandlers srcs.flatten }, none) := by
    rw [initHandlers_new_ok srcs2, ← hsorteq, hchk]
  rw [run_of_init_ok2 f _ _ (sortHandlers srcs.flatten) db hi1 rfl,
    run_of_init_ok2 f _ _ (sortHandlers srcs.flatten) db hi2 rfl]
  refine ⟨rfl, ?_⟩
  have hplt : List.Pairwise (· < ·) ((sortHandlers srcs.flatten).map Handler.index) := by
    rw [hmap]
    exact denseFrom_pairwise_lt N 1
  exact runAfterInit_trace_pairwise f _ db hplt

theorem run_order_invariant_witness :
    (([[⟨2, none⟩], [⟨1, none⟩]] : List (List Handler)).flatten.Perm
      ([[⟨1, none⟩], [⟨2, none⟩]] : List (List Handler)).flatten) ∧
    ((([[⟨2, none⟩], [⟨1, none⟩]] : List (List Handler)).flatten.map Handler.index).Perm
      (denseFrom 1 2)) ∧
    ((run noFaults (Migrate.new (([[⟨2, none⟩], [⟨1, none⟩]]
          : List (List Handler)).map Except.ok)) freshDB).executed
        = (run noFaults (Migrate.new (([[⟨1, none⟩], [⟨2, none⟩]]
          : List (List Handler)).map Except.ok)) freshDB).executed ∧
      List.Pairwise (· < ·) (run noFaults (Migrate.new (([[⟨2, none⟩], [⟨1, none⟩]]
          : List (List Handler)).map Except.ok)) freshDB).executed) :=
  ⟨by decide, by decide,
    run_order_invariant noFaults freshDB [[⟨2, none⟩], [⟨1, none⟩]]
      [[⟨1, none⟩], [⟨2, none⟩]] 2 (by decide) (by decide)⟩
